import Mathlib

/-!
Shallow embedding of the storage/locking core of `oyster-storage-rs`
(`src/database.rs`), layered over a model of the external Redis backend and
the IPFS content overflow store.

Rust `String` values are modelled as byte lists (`List Nat`), so that `.len()`
agrees with Rust byte length.  The Redis backend is modelled as an association
list from keys to entries carrying the stored value and its TTL; the IPFS
overflow store is kept abstract as a record of `add`/`get`/`delete` operations
over an arbitrary state type, since it is an external HTTP service.
-/

set_option autoImplicit false

namespace OysterStorage

/-- A Rust `String` / byte buffer, modelled as its byte sequence. -/
abbrev Str := List Nat

/-- Configuration options consumed by `database.rs`.  The fields mirror the
`Config` struct in `main.rs`; `mem_threshold` is referenced by
`database.rs::store` (the overflow size threshold recognized by the spec)
although the snapshot of `main.rs` omits its declaration. -/
structure Config where
  retry_delay : Nat
  retry_count : Nat
  lock_expiry : Int
  operation_a_cost : Int
  operation_b_cost : Int
  operation_c_cost : Int
  memory_cost : Int
  mem_threshold : Nat
  deriving Repr, DecidableEq

/-- The `StorageData` record persisted (JSON-serialized) as the Redis value.
`value` holds the inline bytes, or the IPFS reference when `ipfs` is set. -/
structure StorageData where
  value : Str
  modified : Int
  ipfs : Bool
  deriving Repr, DecidableEq

/-- The `KeyInfo` result of `stat`. -/
structure KeyInfo where
  key : Str
  modified : Int
  size : Nat
  is_terminal : Bool
  deriving Repr, DecidableEq

/-- Errors surfaced by the Rust code (all are `Box<dyn Error>` values; each
constructor stands for one concrete error produced by the code). -/
inductive Err where
  /-- The literal error string `expiry cannot be zero` from `store`. -/
  | expiryZero
  /-- The literal error string `Cant obtain lock` (with apostrophe) from `lock`. -/
  | lockFailed
  /-- The literal error string `lock_id mismatch` from `unlock`. -/
  | lockMismatch
  /-- `get_unique_lock_id` could not read 20 random bytes. -/
  | shortRandom
  /-- redis-rs `FromRedisValue` conversion failure: a `Nil` reply (absent key)
  does not convert to `String`, producing a type error. -/
  | redisType
  /-- `serde_json::from_str` failed to decode a `StorageData` record. -/
  | jsonDecode
  /-- The IPFS client returned a non-200 status. -/
  | ipfsNon200
  deriving Repr, DecidableEq

/-- One Redis entry: the stored bytes plus the TTL (in ms) attached by the
latest `SET ... PX` (`KEEPTTL` preserves it).  Entries are removed by the
backend at expiry; an entry present in the model is an unexpired one. -/
structure Entry where
  val : Str
  ttl : Int
  deriving Repr, DecidableEq

/-- The Redis keyspace: an association list in SCAN enumeration order. -/
abbrev Kv := List (Str × Entry)

/-- Backend `GET`: first binding of the key, if any. -/
def kvGet : Kv → Str → Option Entry
  | [], _ => none
  | (k2, e) :: rest, k => if k2 = k then some e else kvGet rest k

/-- Backend `EXISTS`. -/
def kvHas (st : Kv) (k : Str) : Bool := (kvGet st k).isSome

/-- Replace the value bound to a present key, keeping its position. -/
def kvReplace : Kv → Str → Entry → Kv
  | [], _, _ => []
  | (k2, e2) :: rest, k, e =>
    if k2 = k then (k, e) :: kvReplace rest k e else (k2, e2) :: kvReplace rest k e

/-- Backend `SET`: overwrite in place when present, else append. -/
def kvSet (st : Kv) (k : Str) (e : Entry) : Kv :=
  if kvHas st k then kvReplace st k e else st ++ [(k, e)]

/-- Backend `DEL`. -/
def kvDel : Kv → Str → Kv
  | [], _ => []
  | (k2, e2) :: rest, k => if k2 = k then kvDel rest k else (k2, e2) :: kvDel rest k

@[simp] theorem kvGet_nil (k : Str) : kvGet [] k = none := rfl

theorem kvGet_kvReplace_self (st : Kv) (k : Str) (e : Entry)
    (h : (kvGet st k).isSome) : kvGet (kvReplace st k e) k = some e := by
  induction st with
  | nil => simp [kvGet] at h
  | cons p rest ih =>
    obtain ⟨k2, e2⟩ := p
    by_cases hk : k2 = k
    · simp [kvReplace, kvGet, hk]
    · simp [kvReplace, kvGet, hk] at h ⊢
      exact ih h

theorem kvGet_append_single (st : Kv) (k : Str) (e : Entry)
    (h : kvGet st k = none) : kvGet (st ++ [(k, e)]) k = some e := by
  induction st with
  | nil => simp [kvGet]
  | cons p rest ih =>
    obtain ⟨k2, e2⟩ := p
    by_cases hk : k2 = k
    · simp [kvGet, hk] at h
    · simp [kvGet, hk] at h ⊢
      exact ih h

theorem kvGet_kvSet_self (st : Kv) (k : Str) (e : Entry) :
    kvGet (kvSet st k e) k = some e := by
  unfold kvSet
  by_cases h : kvHas st k
  · simp [h]
    exact kvGet_kvReplace_self st k e h
  · simp [h]
    apply kvGet_append_single
    rw [← Option.not_isSome_iff_eq_none]
    simpa [kvHas] using h

/-- Models `get_namespace_pre` of `database.rs`: `pcr + "/"` (47 is the
byte of the separator).  Renamed here to `get_namespace_pre`. -/
def get_namespace_pre (pcr : Str) : Str := pcr ++ [47]

/-- `get_namespaced_key`: data-keyspace key for `(tenant, logical key)`. -/
def get_namespaced_key (pcr key : Str) : Str := get_namespace_pre pcr ++ key

/-- Models `get_locked_pre` of `database.rs`: `pcr + ".lock" + "/"` (the
bytes of `.lock/`).  Renamed here to `get_locked_pre`. -/
def get_locked_pre (pcr : Str) : Str := pcr ++ [46, 108, 111, 99, 107, 47]

/-- `get_locked_key`: lock-keyspace key for `(tenant, logical key)`. -/
def get_locked_key (pcr key : Str) : Str := get_locked_pre pcr ++ key

/-- Lowercase hex digit byte, as used by serde_json's escape table. -/
def hexDigit (n : Nat) : Nat := if n < 10 then 48 + n else 87 + n

/-- serde_json escaping of one byte of a JSON string: quote, backslash and the
short control escapes get a two-byte escape, the other control bytes get
`\u00XX`, everything else (including non-ASCII bytes) is emitted raw. -/
def escapeByte (b : Nat) : List Nat :=
  if b = 34 then [92, 34]
  else if b = 92 then [92, 92]
  else if b = 8 then [92, 98]
  else if b = 9 then [92, 116]
  else if b = 10 then [92, 110]
  else if b = 12 then [92, 102]
  else if b = 13 then [92, 114]
  else if b < 32 then [92, 117, 48, 48, hexDigit (b / 16), hexDigit (b % 16)]
  else [b]

/-- serde_json escaping of a whole string body. -/
def escapeStr (s : Str) : Str := (s.map escapeByte).flatten

/-- Decimal digit bytes, structured over a fuel bound so that the definition
reduces definitionally; the fuel-exhausted base case is reached only for
`n = 0` when called through `natDigits`. -/
def natDigitsF : Nat → Nat → List Nat
  | 0, n => [48 + n % 10]
  | fuel + 1, n =>
    if n < 10 then [48 + n] else natDigitsF fuel (n / 10) ++ [48 + n % 10]

/-- Decimal digit bytes of a natural number (most significant first). -/
def natDigits (n : Nat) : List Nat := natDigitsF n n

/-- serde_json integer serialization of an `i64`. -/
def encodeInt (i : Int) : List Nat :=
  if i < 0 then 45 :: natDigits i.natAbs else natDigits i.natAbs

/-- Bytes of the literal `{"value":"`. -/
def litValueField : Str := [123, 34, 118, 97, 108, 117, 101, 34, 58, 34]

/-- Bytes of the literal `","modified":` (closing quote of the value string
followed by the `modified` field header). -/
def litModifiedField : Str := [34, 44, 34, 109, 111, 100, 105, 102, 105, 101, 100, 34, 58]

/-- Bytes of the literal `,"ipfs":`. -/
def litIpfsField : Str := [44, 34, 105, 112, 102, 115, 34, 58]

/-- Bytes of the literal `true`. -/
def litTrue : Str := [116, 114, 117, 101]

/-- Bytes of the literal `false`. -/
def litFalse : Str := [102, 97, 108, 115, 101]

/-- `serde_json::to_string` of a `StorageData` value: fields in declaration
order, no whitespace. -/
def encodeStorageData (d : StorageData) : Str :=
  litValueField ++ escapeStr d.value ++ litModifiedField ++
    encodeInt d.modified ++ litIpfsField ++
    (if d.ipfs then litTrue else litFalse) ++ [125]

/-- Strip an expected literal from the front of the input. -/
def stripPre (p s : Str) : Option Str :=
  if p.isPrefixOf s then some (s.drop p.length) else none

/-- Value of a hex digit byte. -/
def hexVal (c : Nat) : Option Nat :=
  if 48 ≤ c ∧ c ≤ 57 then some (c - 48)
  else if 97 ≤ c ∧ c ≤ 102 then some (c - 87)
  else if 65 ≤ c ∧ c ≤ 70 then some (c - 55)
  else none

/-- Parse the body of a JSON string up to (and consuming) the closing quote,
undoing serde_json's escapes; returns the decoded bytes and the rest. -/
def parseJStr : Str → Option (Str × Str)
  | [] => none
  | c :: rest =>
    if c = 34 then some ([], rest)
    else if c = 92 then
      match rest with
      | [] => none
      | e :: rest2 =>
        if e = 34 then (parseJStr rest2).map (fun p => (34 :: p.1, p.2))
        else if e = 92 then (parseJStr rest2).map (fun p => (92 :: p.1, p.2))
        else if e = 98 then (parseJStr rest2).map (fun p => (8 :: p.1, p.2))
        else if e = 116 then (parseJStr rest2).map (fun p => (9 :: p.1, p.2))
        else if e = 110 then (parseJStr rest2).map (fun p => (10 :: p.1, p.2))
        else if e = 102 then (parseJStr rest2).map (fun p => (12 :: p.1, p.2))
        else if e = 114 then (parseJStr rest2).map (fun p => (13 :: p.1, p.2))
        else if e = 117 then
          match rest2 with
          | h1 :: h2 :: h3 :: h4 :: rest3 =>
            match hexVal h1, hexVal h2, hexVal h3, hexVal h4 with
            | some a, some b, some c2, some d =>
              (parseJStr rest3).map
                (fun p => ((a * 4096 + b * 256 + c2 * 16 + d) :: p.1, p.2))
            | _, _, _, _ => none
          | _ => none
        else none
    else (parseJStr rest).map (fun p => (c :: p.1, p.2))

/-- Is the byte an ASCII decimal digit? -/
def isDigitB (c : Nat) : Bool := 48 ≤ c ∧ c ≤ 57

/-- Accumulate decimal digits. -/
def parseNatAux : Str → Nat → Nat × Str
  | [], acc => (acc, [])
  | c :: rest, acc =>
    if isDigitB c then parseNatAux rest (acc * 10 + (c - 48)) else (acc, c :: rest)

/-- Parse a (possibly negative) decimal integer. -/
def parseInt : Str → Option (Int × Str)
  | [] => none
  | c :: rest =>
    if c = 45 then
      match rest with
      | [] => none
      | d :: _ =>
        if isDigitB d then
          let p := parseNatAux rest 0
          some (-(p.1 : Int), p.2)
        else none
    else if isDigitB c then
      let p := parseNatAux (c :: rest) 0
      some ((p.1 : Int), p.2)
    else none

/-- `serde_json::from_str::<StorageData>` restricted to the canonical
serialization shape that `encodeStorageData` produces (the only shape this
system ever stores). -/
def decodeStorageData (s : Str) : Option StorageData := do
  let s1 ← stripPre litValueField s
  let (v, s2) ← parseJStr s1
  let s3 ← stripPre (litModifiedField.drop 1) s2
  let (m, s4) ← parseInt s3
  let s5 ← stripPre litIpfsField s4
  let (b, s6) ←
    (match stripPre litTrue s5 with
     | some r => some (true, r)
     | none => (stripPre litFalse s5).map (fun r => (false, r)))
  match s6 with
  | [125] => some (⟨v, m, b⟩ : StorageData)
  | _ => none

theorem hexVal_hexDigit (n : Nat) (h : n < 16) : hexVal (hexDigit n) = some n := by
  unfold hexDigit hexVal
  by_cases h10 : n < 10
  · rw [if_pos h10, if_pos (by omega : 48 ≤ 48 + n ∧ 48 + n ≤ 57)]
    simp
  · rw [if_neg h10, if_neg (by omega : ¬(48 ≤ 87 + n ∧ 87 + n ≤ 57)),
      if_pos (by omega : 97 ≤ 87 + n ∧ 87 + n ≤ 102)]
    simp

theorem parseJStr_escape (v rest : Str) :
    parseJStr (escapeStr v ++ 34 :: rest) = some (v, rest) := by
  induction v with
  | nil =>
    rw [show escapeStr [] ++ 34 :: rest = 34 :: rest by simp [escapeStr]]
    rw [parseJStr.eq_def]
    simp
  | cons b v ih =>
    have hesc : escapeStr (b :: v) ++ 34 :: rest
        = escapeByte b ++ (escapeStr v ++ 34 :: rest) := by
      simp [escapeStr]
    rw [hesc]
    by_cases h34 : b = 34
    · subst h34
      rw [show escapeByte 34 = [92, 34] from rfl]
      rw [List.cons_append, List.cons_append, List.nil_append,
        parseJStr.eq_def]
      simp [ih]
    · by_cases h92 : b = 92
      · subst h92
        rw [show escapeByte 92 = [92, 92] by simp [escapeByte]]
        rw [List.cons_append, List.cons_append, List.nil_append,
          parseJStr.eq_def]
        simp [ih]
      · by_cases h8 : b = 8
        · subst h8
          rw [show escapeByte 8 = [92, 98] by simp [escapeByte]]
          rw [List.cons_append, List.cons_append, List.nil_append,
            parseJStr.eq_def]
          simp [ih]
        · by_cases h9 : b = 9
          · subst h9
            rw [show escapeByte 9 = [92, 116] by simp [escapeByte]]
            rw [List.cons_append, List.cons_append, List.nil_append,
              parseJStr.eq_def]
            simp [ih]
          · by_cases h10 : b = 10
            · subst h10
              rw [show escapeByte 10 = [92, 110] by simp [escapeByte]]
              rw [List.cons_append, List.cons_append, List.nil_append,
                parseJStr.eq_def]
              simp [ih]
            · by_cases h12 : b = 12
              · subst h12
                rw [show escapeByte 12 = [92, 102] by simp [escapeByte]]
                rw [List.cons_append, List.cons_append, List.nil_append,
                  parseJStr.eq_def]
                simp [ih]
              · by_cases h13 : b = 13
                · subst h13
                  rw [show escapeByte 13 = [92, 114] by simp [escapeByte]]
                  rw [List.cons_append, List.cons_append, List.nil_append,
                    parseJStr.eq_def]
                  simp [ih]
                · by_cases hlt : b < 32
                  · have hb : escapeByte b
                        = [92, 117, 48, 48, hexDigit (b / 16), hexDigit (b % 16)] := by
                      simp [escapeByte, h34, h92, h8, h9, h10, h12, h13, hlt]
                    rw [hb]
                    have hx : hexVal (hexDigit (b / 16)) = some (b / 16) :=
                      hexVal_hexDigit _ (by omega)
                    have hy : hexVal (hexDigit (b % 16)) = some (b % 16) :=
                      hexVal_hexDigit _ (by omega)
                    simp only [List.cons_append, List.nil_append]
                    rw [parseJStr.eq_def]
                    have h48 : hexVal 48 = some 0 := by simp [hexVal]
                    simp [hx, hy, h48, ih]
                    omega
                  · have hb : escapeByte b = [b] := by
                      simp [escapeByte, h34, h92, h8, h9, h10, h12, h13, hlt]
                    rw [hb]
                    rw [List.cons_append, List.nil_append, parseJStr.eq_def]
                    simp [h34, h92, ih]

/-- The first byte of the input is not a decimal digit (or the input ends). -/
def headNotDigit : Str → Prop
  | [] => True
  | c :: _ => isDigitB c = false

theorem parseNatAux_stop (rest : Str) (acc : Nat) (h : headNotDigit rest) :
    parseNatAux rest acc = (acc, rest) := by
  cases rest with
  | nil => rfl
  | cons c cs => simp [parseNatAux, headNotDigit] at h ⊢; simp [h]

theorem natDigitsF_cons (fuel : Nat) : ∀ n : Nat,
    ∃ d ds, natDigitsF fuel n = d :: ds ∧ isDigitB d = true := by
  induction fuel with
  | zero =>
    intro n
    exact ⟨48 + n % 10, [], rfl, by simp [isDigitB]; omega⟩
  | succ f ih =>
    intro n
    by_cases h : n < 10
    · refine ⟨48 + n, [], ?_, ?_⟩
      · rw [natDigitsF]; simp [h]
      · simp [isDigitB]; omega
    · obtain ⟨d, ds, hd, hdig⟩ := ih (n / 10)
      refine ⟨d, ds ++ [48 + n % 10], ?_, hdig⟩
      rw [natDigitsF]; simp [h, hd]

theorem natDigits_cons (n : Nat) :
    ∃ d ds, natDigits n = d :: ds ∧ isDigitB d = true := natDigitsF_cons n n

theorem parseNatAux_natDigitsF (fuel : Nat) : ∀ n acc rest, n ≤ fuel →
    parseNatAux (natDigitsF fuel n ++ rest) acc
      = parseNatAux rest (acc * 10 ^ (natDigitsF fuel n).length + n) := by
  induction fuel with
  | zero =>
    intro n acc rest hn
    have hn0 : n = 0 := by omega
    subst hn0
    rw [show natDigitsF 0 0 = [48] from rfl]
    simp only [List.cons_append, List.nil_append, List.length_cons,
      List.length_nil]
    rw [parseNatAux, if_pos (by simp [isDigitB])]
    norm_num
  | succ f ih =>
    intro n acc rest hn
    by_cases h : n < 10
    · rw [natDigitsF]
      simp only [h, if_true, List.cons_append, List.nil_append,
        List.length_cons, List.length_nil]
      rw [parseNatAux]
      rw [if_pos (by simp [isDigitB]; omega)]
      have h48 : 48 + n - 48 = n := by omega
      rw [h48]
      norm_num
    · rw [natDigitsF]
      simp only [h, if_false, List.append_assoc, List.cons_append,
        List.nil_append, List.length_append, List.length_cons, List.length_nil]
      rw [ih (n / 10) acc ((48 + n % 10) :: rest) (by omega)]
      rw [parseNatAux]
      rw [if_pos (by simp [isDigitB]; omega)]
      congr 1
      have hmod : 48 + n % 10 - 48 = n % 10 := by omega
      rw [hmod]
      have hdm : n / 10 * 10 + n % 10 = n := by omega
      calc (acc * 10 ^ (natDigitsF f (n / 10)).length + n / 10) * 10 + n % 10
          = acc * (10 ^ (natDigitsF f (n / 10)).length * 10)
            + (n / 10 * 10 + n % 10) := by ring
        _ = acc * 10 ^ ((natDigitsF f (n / 10)).length + (0 + 1)) + n := by
            rw [hdm, pow_add, pow_one]

theorem parseNatAux_natDigits (n : Nat) : ∀ acc rest,
    parseNatAux (natDigits n ++ rest) acc
      = parseNatAux rest (acc * 10 ^ (natDigits n).length + n) := by
  intro acc rest
  exact parseNatAux_natDigitsF n n acc rest (le_refl n)

theorem parseInt_encodeInt (i : Int) (rest : Str) (h : headNotDigit rest) :
    parseInt (encodeInt i ++ rest) = some (i, rest) := by
  obtain ⟨d, ds, hd, hdig⟩ := natDigits_cons i.natAbs
  have hnat : parseNatAux (natDigits i.natAbs ++ rest) 0 = (i.natAbs, rest) := by
    rw [parseNatAux_natDigits, parseNatAux_stop _ _ h]
    simp
  unfold encodeInt
  by_cases hneg : i < 0
  · rw [if_pos hneg]
    rw [List.cons_append, parseInt.eq_def]
    rw [hd] at hnat ⊢
    rw [List.cons_append] at hnat ⊢
    simp only [if_pos rfl]
    simp [hdig, hnat]
    have habs : |i| = -i := abs_of_neg hneg
    omega
  · rw [if_neg hneg]
    rw [hd] at hnat ⊢
    rw [List.cons_append] at hnat ⊢
    rw [parseInt.eq_def]
    have hne45 : ¬d = 45 := by simp [isDigitB] at hdig; omega
    simp [hne45, hdig, hnat]
    have habs : |i| = i := abs_of_nonneg (by omega)
    omega

theorem stripPre_append (p r : Str) : stripPre p (p ++ r) = some r := by
  unfold stripPre
  rw [if_pos (by rw [ List.isPrefixOf_iff_prefix]; exact ⟨r, rfl⟩)]
  rw [List.drop_left]

theorem decode_encode (d : StorageData) :
    decodeStorageData (encodeStorageData d) = some d := by
  obtain ⟨v, m, b⟩ := d
  have henc : encodeStorageData ⟨v, m, b⟩
      = litValueField ++ (escapeStr v ++ (34 :: ((litModifiedField.drop 1)
        ++ (encodeInt m ++ (litIpfsField
        ++ ((if b then litTrue else litFalse) ++ [125])))))) := by
    unfold encodeStorageData
    simp [litModifiedField, litValueField, litIpfsField]
  rw [decodeStorageData, henc]
  rw [stripPre_append]
  simp only [Option.bind_eq_bind, Option.some_bind]
  rw [show escapeStr v ++ (34 :: ((litModifiedField.drop 1)
        ++ (encodeInt m ++ (litIpfsField
        ++ ((if b then litTrue else litFalse) ++ [125])))))
      = escapeStr v ++ 34 :: ((litModifiedField.drop 1)
        ++ (encodeInt m ++ (litIpfsField
        ++ ((if b then litTrue else litFalse) ++ [125])))) from rfl]
  rw [parseJStr_escape]
  simp only [Option.some_bind]
  rw [stripPre_append]
  simp only [Option.some_bind]
  rw [parseInt_encodeInt _ _ (by simp [litIpfsField, headNotDigit, isDigitB])]
  simp only [Option.some_bind]
  rw [stripPre_append]
  simp only [Option.some_bind]
  cases b with
  | true => simp [stripPre_append, litTrue, litFalse, stripPre]
  | false => simp [stripPre_append, litTrue, litFalse, stripPre, List.isPrefixOf]

/-- The Content Overflow Store (`ipfs.rs`): an external HTTP service with
opaque state `σ`.  `add` returns the reference (hash) and the new store
state; `get` resolves a reference; `del` unpins a reference.  Each may fail
(network / non-200 status). -/
structure Ipfs (σ : Type) where
  add : σ → Str → (Except Err Str) × σ
  get : σ → Str → Except Err Str
  del : σ → Str → (Except Err Unit) × σ

/-- The tail of `store` after the tiering decision: `enc` is the serialized
`StorageData` record.  Mirrors the `exp` branch of `database.rs::store`:
`exp > 0` does `SET key enc PX exp`; `exp == -1` does `SET key enc XX GET
KEEPTTL` (only if present, keeping the TTL, returning the old value — a `Nil`
reply for an absent key fails the `String` conversion); anything else fails
with the zero-expiry error.  Rust `i64` division truncates toward zero,
which `Int.div` matches. -/
def storeAfterTier (cfg : Config) (nk : Str) (exp : Int) (enc : Str) (kv : Kv) :
    (Except Err Int) × Kv :=
  let cost0 : Int := enc.length
  if exp > 0 then
    (.ok (((nk.length : Int) + cost0) * (Int.tdiv exp 1000) * cfg.memory_cost
        + cfg.operation_c_cost),
     kvSet kv nk ⟨enc, exp⟩)
  else if exp = -1 then
    match kvGet kv nk with
    | some e =>
      (.ok (max (cost0 - (e.val.length : Int)) 0 * (Int.tdiv exp 1000) * cfg.memory_cost
          + cfg.operation_c_cost),
       kvSet kv nk ⟨enc, e.ttl⟩)
    | none => (.error .redisType, kv)
  else (.error .expiryZero, kv)

/-- `database.rs::store`: tiering first (push to the overflow store when the
raw value exceeds `mem_threshold`), then the expiry-dependent write.
Returns the result together with the final backend and overflow-store
states; `now` stands for `Utc::now().timestamp_millis()`. -/
def storeF {σ : Type} (I : Ipfs σ) (cfg : Config) (pcr key : Str) (exp : Int)
    (value : Str) (now : Int) (kv : Kv) (ip : σ) :
    (Except Err Int) × Kv × σ :=
  let nk := get_namespaced_key pcr key
  if value.length > cfg.mem_threshold then
    match I.add ip value with
    | (.ok ref, ip2) =>
      let r := storeAfterTier cfg nk exp (encodeStorageData ⟨ref, now, true⟩) kv
      (r.1, r.2, ip2)
    | (.error e, ip2) => (.error e, kv, ip2)
  else
    let r := storeAfterTier cfg nk exp (encodeStorageData ⟨value, now, false⟩) kv
    (r.1, r.2, ip)

/-- `database.rs::load`: `GET` the namespaced key (a `Nil` reply fails the
`String` conversion), decode the record, and resolve the overflow reference
when the `ipfs` flag is set. -/
def loadF {σ : Type} (I : Ipfs σ) (cfg : Config) (pcr key : Str) (kv : Kv)
    (ip : σ) : Except Err (Str × Int) :=
  match kvGet kv (get_namespaced_key pcr key) with
  | none => .error .redisType
  | some e =>
    match decodeStorageData e.val with
    | none => .error .jsonDecode
    | some d =>
      if d.ipfs then
        match I.get ip d.value with
        | .ok v => .ok (v, cfg.operation_c_cost)
        | .error er => .error er
      else .ok (d.value, cfg.operation_c_cost)

/-- `database.rs::delete`: `GET` first (a `Nil` reply for an absent key fails
the `String` conversion, so the function errors there), unpin the overflow
blob when flagged (a failure aborts the whole delete), then `DEL`. -/
def deleteF {σ : Type} (I : Ipfs σ) (cfg : Config) (pcr key : Str) (kv : Kv)
    (ip : σ) : (Except Err Int) × Kv × σ :=
  let nk := get_namespaced_key pcr key
  match kvGet kv nk with
  | none => (.error .redisType, kv, ip)
  | some e =>
    if e.val.length > 0 then
      match decodeStorageData e.val with
      | none => (.error .jsonDecode, kv, ip)
      | some d =>
        if d.ipfs then
          match I.del ip d.value with
          | (.ok _, ip2) => (.ok cfg.operation_c_cost, kvDel kv nk, ip2)
          | (.error er, ip2) => (.error er, kv, ip2)
        else (.ok cfg.operation_c_cost, kvDel kv nk, ip)
    else (.ok cfg.operation_c_cost, kvDel kv nk, ip)

/-- `database.rs::exists`: `EXISTS` on the namespaced key. -/
def existsF (cfg : Config) (pcr key : Str) (kv : Kv) : Bool × Int :=
  (kvHas kv (get_namespaced_key pcr key), cfg.operation_c_cost)

/-- `database.rs::stat`: `GET`, decode, and report the stored record fields;
`size` is the byte length of the record's `value` field as stored (the
inline bytes, or the overflow reference when the record overflowed), and
`is_terminal` is the naming-convention flag. -/
def statF (cfg : Config) (pcr key : Str) (kv : Kv) :
    Except Err (KeyInfo × Int) :=
  match kvGet kv (get_namespaced_key pcr key) with
  | none => .error .redisType
  | some e =>
    match decodeStorageData e.val with
    | none => .error .jsonDecode
    | some d =>
      .ok (⟨key, d.modified, d.value.length, !(key.getLast? == some 47)⟩,
        cfg.operation_c_cost)

/-- Model of the Redis glob matcher used by `SCAN ... MATCH`, for the pattern
constructs this system generates: `*` (42) matches any run of bytes, `?` (63)
matches one byte, a backslash (92) escapes the next byte, anything else
matches itself.  Structured over a fuel bound (every step consumes at least
one pattern or key byte, so `|pattern| + |key| + 1` fuel always suffices; the
fuel-exhausted case is then unreachable).  The character-class construct of
the backend matcher is not modelled; the theorems below restrict tenants and
prefixes to bytes on which the two matchers agree. -/
def globMatchF : Nat → List Nat → List Nat → Bool
  | 0, ps, ks => ps.isEmpty && ks.isEmpty
  | fuel + 1, ps, ks =>
    match ps with
    | [] => ks.isEmpty
    | p :: ps2 =>
      if p = 42 then
        globMatchF fuel ps2 ks ||
          (match ks with
           | [] => false
           | _ :: ks2 => globMatchF fuel (p :: ps2) ks2)
      else if p = 63 then
        match ks with
        | [] => false
        | _ :: ks2 => globMatchF fuel ps2 ks2
      else if p = 92 then
        match ps2 with
        | [] => false
        | p2 :: ps3 =>
          match ks with
          | [] => false
          | k :: ks2 => decide (p2 = k) && globMatchF fuel ps3 ks2
      else
        match ks with
        | [] => false
        | k :: ks2 => decide (p = k) && globMatchF fuel ps2 ks2

/-- The Redis glob matcher at sufficient fuel. -/
def globMatch (pat key : List Nat) : Bool :=
  globMatchF (pat.length + key.length + 1) pat key

/-- ASCII whitespace, modelling `str::trim` for the byte range this system
compares (`prefix.trim().len() == 0`). -/
def isRustWs (b : Nat) : Bool := b = 9 || b = 10 || b = 11 || b = 12 || b = 13 || b = 32

/-- `str::trim` on the byte model. -/
def rustTrim (s : Str) : Str :=
  ((s.dropWhile isRustWs).reverse.dropWhile isRustWs).reverse

/-- One backend `SCAN cursor MATCH pattern COUNT 1` step over the keyspace in
enumeration order: examine one slot, return the matching keys among it and
the next cursor (0 again once the scan has wrapped, which is the loop's
termination signal). -/
def scanOnce (keys : List Str) (pat : Str) (cursor : Nat) : Nat × List Str :=
  ((if cursor + 1 < keys.length then cursor + 1 else 0),
   ((keys.drop cursor).take 1).filter (fun k => globMatch pat k))

/-- The cursor loop of `database.rs::list`: repeatedly `SCAN`, strip the
namespace from each returned key (dropping keys of other namespaces), and
stop when the returned cursor equals the starting cursor `0`. -/
def listLoop (keys : List Str) (pat ns : Str) : Nat → Nat → List Str
  | 0, _ => []
  | fuel + 1, cursor =>
    let r := scanOnce keys pat cursor
    let found := r.2.filterMap (fun k => stripPre ns k)
    if r.1 = 0 then found else found ++ listLoop keys pat ns fuel r.1

/-- First path segment: `split('/').next()`. -/
def firstSeg (k : Str) : Str := k.takeWhile (fun b => decide (b ≠ 47))

/-- De-duplication via a set, keeping the first occurrence of each element
(the iteration order of the Rust `HashSet` is unspecified; no theorem below
depends on the order of the collapsed listing). -/
def dedupFirst : List Str → List Str
  | [] => []
  | k :: rest => k :: dedupFirst (rest.filter (fun x => decide (x ≠ k)))
  termination_by l => l.length
  decreasing_by
    exact Nat.lt_succ_of_le (List.length_filter_le _ _)

/-- `database.rs::list`: build the search pattern, run the cursor scan over
the whole keyspace, and either return the flat matches (recursive listing or
whole-namespace search) or collapse them to one directory level. -/
def listF (cfg : Config) (pcr pfx : Str) (recursive : Bool) (kv : Kv) :
    List Str × Int :=
  let search : Str :=
    if pfx = [42] ∨ (rustTrim pfx).length = 0 then get_namespaced_key pcr [42]
    else get_namespaced_key pcr pfx ++ [42]
  let keys := kv.map Prod.fst
  let keysfound := listLoop keys search (get_namespace_pre pcr) (keys.length + 1) 0
  if recursive ∨ pfx = [42] ∨ (rustTrim pfx).length = 0 then
    (keysfound, cfg.operation_a_cost)
  else
    let segs := dedupFirst
      (keysfound.map (fun k => firstSeg ((stripPre pfx k).getD [])))
    (segs.map (fun s => pfx ++ s), cfg.operation_a_cost)

/-- `get_unique_lock_id`: read up to 20 bytes from `/dev/urandom` (modelled
as the byte stream `stream`); fail unless exactly 20 bytes were read. -/
def get_unique_lock_id (stream : List Nat) : Except Err (List Nat) :=
  let buf := stream.take 20
  if buf.length = 20 then .ok buf else .error .shortRandom

/-- The environment one `lock` call runs in.  Because other clients mutate
the backend concurrently, each backend round-trip observes its own state:
`existsAt i` is the `EXISTS` reply of attempt `i`, `raceAt i` tells whether
the `SET NX` of attempt `i` loses a race (the key reappeared in between),
and `entropy i` is the `/dev/urandom` stream read on attempt `i`. -/
structure LockEnv where
  existsAt : Nat → Bool
  raceAt : Nat → Bool
  entropy : Nat → List Nat

/-- The retry loop of `database.rs::lock`, returning the result together with
the number of loop iterations (backend attempts) executed.  Each attempt:
if the lock key exists, sleep `retry_delay` and retry; otherwise draw a
token and issue `SET val NX PX lock_expiry` — success returns the token,
failure breaks out of the loop to the contention error. -/
def lockLoop (cfg : Config) (env : LockEnv) :
    Nat → Nat → (Except Err (List Nat × Int)) × Nat
  | 0, used => (.error .lockFailed, used)
  | fuel + 1, used =>
    if env.existsAt used then lockLoop cfg env fuel (used + 1)
    else
      match get_unique_lock_id (env.entropy used) with
      | .error e => (.error e, used + 1)
      | .ok val =>
        if env.raceAt used then (.error .lockFailed, used + 1)
        else (.ok (val, cfg.operation_b_cost), used + 1)

/-- `database.rs::lock`: up to `retry_count` attempts. -/
def lockF (cfg : Config) (env : LockEnv) : (Except Err (List Nat × Int)) × Nat :=
  lockLoop cfg env cfg.retry_count 0

/-- `load_locked`: `GET` on the lock key; redis-rs converts a `Nil` reply to
an empty `Vec<u8>`, so an absent lock key reads as the empty byte string. -/
def load_locked (pcr key : Str) (kv : Kv) : Str :=
  match kvGet kv (get_locked_key pcr key) with
  | some e => e.val
  | none => []

/-- `delete_locked`: `DEL` on the lock key. -/
def delete_locked (pcr key : Str) (kv : Kv) : Kv :=
  kvDel kv (get_locked_key pcr key)

/-- `database.rs::unlock`: byte-for-byte comparison of the stored lock value
with the caller's token; on a match delete the lock key, otherwise fail with
the ownership-mismatch error, leaving the backend untouched. -/
def unlockF (cfg : Config) (pcr key : Str) (lock_id : Str) (kv : Kv) :
    (Except Err Int) × Kv :=
  if load_locked pcr key kv = lock_id then
    (.ok cfg.operation_b_cost, delete_locked pcr key kv)
  else (.error .lockMismatch, kv)

theorem kvGet_kvDel_self (st : Kv) (k : Str) : kvGet (kvDel st k) k = none := by
  induction st with
  | nil => simp [kvDel]
  | cons p rest ih =>
    obtain ⟨k2, e2⟩ := p
    by_cases hk : k2 = k
    · simpa [kvDel, hk] using ih
    · simpa [kvDel, kvGet, hk] using ih

theorem storeAfterTier_pos (cfg : Config) (nk : Str) (exp : Int) (enc : Str)
    (kv : Kv) (h : 0 < exp) :
    storeAfterTier cfg nk exp enc kv
      = (.ok (((nk.length : Int) + enc.length) * (Int.tdiv exp 1000) * cfg.memory_cost
            + cfg.operation_c_cost),
         kvSet kv nk ⟨enc, exp⟩) := by
  simp [storeAfterTier, h]

theorem storeAfterTier_refresh (cfg : Config) (nk : Str) (enc : Str) (kv : Kv) :
    storeAfterTier cfg nk (-1) enc kv
      = (match kvGet kv nk with
         | some e =>
           (.ok (max ((enc.length : Int) - e.val.length) 0 * (Int.tdiv (-1) 1000)
                * cfg.memory_cost + cfg.operation_c_cost),
            kvSet kv nk ⟨enc, e.ttl⟩)
         | none => (.error .redisType, kv)) := by
  simp [storeAfterTier]

theorem storeAfterTier_invalid (cfg : Config) (nk : Str) (exp : Int) (enc : Str)
    (kv : Kv) (h1 : ¬0 < exp) (h2 : exp ≠ -1) :
    storeAfterTier cfg nk exp enc kv = (.error .expiryZero, kv) := by
  simp [storeAfterTier, h1, h2]

theorem storeF_small {σ : Type} (I : Ipfs σ) (cfg : Config) (pcr key : Str)
    (exp : Int) (value : Str) (now : Int) (kv : Kv) (ip : σ)
    (h : ¬value.length > cfg.mem_threshold) :
    storeF I cfg pcr key exp value now kv ip
      = ((storeAfterTier cfg (get_namespaced_key pcr key) exp
            (encodeStorageData ⟨value, now, false⟩) kv).1,
         (storeAfterTier cfg (get_namespaced_key pcr key) exp
            (encodeStorageData ⟨value, now, false⟩) kv).2, ip) := by
  simp [storeF, h]

theorem storeF_big {σ : Type} (I : Ipfs σ) (cfg : Config) (pcr key : Str)
    (exp : Int) (value : Str) (now : Int) (kv : Kv) (ip : σ) (r : Str) (ip2 : σ)
    (h : value.length > cfg.mem_threshold) (hadd : I.add ip value = (.ok r, ip2)) :
    storeF I cfg pcr key exp value now kv ip
      = ((storeAfterTier cfg (get_namespaced_key pcr key) exp
            (encodeStorageData ⟨r, now, true⟩) kv).1,
         (storeAfterTier cfg (get_namespaced_key pcr key) exp
            (encodeStorageData ⟨r, now, true⟩) kv).2, ip2) := by
  simp [storeF, h, hadd]

theorem storeF_big_addFail {σ : Type} (I : Ipfs σ) (cfg : Config) (pcr key : Str)
    (exp : Int) (value : Str) (now : Int) (kv : Kv) (ip : σ) (er : Err) (ip2 : σ)
    (h : value.length > cfg.mem_threshold) (hadd : I.add ip value = (.error er, ip2)) :
    storeF I cfg pcr key exp value now kv ip = (.error er, kv, ip2) := by
  simp [storeF, h, hadd]

/-- C1: round-trip — `store(tenant, key, expiry_ms, value)` with
`expiry_ms > 0` followed by `load(tenant, key)` (before expiry, i.e. while
the written record is still present) returns exactly the original value
bytes, both on the inline path and on the overflow path, assuming the
overflow store's `get` is a left inverse of its `add`. -/
theorem store_load_round_trip {σ : Type} (I : Ipfs σ) (cfg : Config)
    (pcr key : Str) (exp : Int) (value : Str) (now : Int) (kv : Kv) (ip : σ)
    (c : Int) (kv2 : Kv) (ip2 : σ)
    (hinv : ∀ s w r s2, I.add s w = (.ok r, s2) → I.get s2 r = .ok w)
    (hexp : 0 < exp)
    (hstore : storeF I cfg pcr key exp value now kv ip = (.ok c, kv2, ip2)) :
    loadF I cfg pcr key kv2 ip2 = .ok (value, cfg.operation_c_cost) := by
  by_cases hbig : value.length > cfg.mem_threshold
  · rcases hadd : I.add ip value with ⟨res, ipB⟩
    cases res with
    | error e =>
      rw [storeF_big_addFail I cfg pcr key exp value now kv ip e ipB hbig hadd]
        at hstore
      simp at hstore
    | ok r =>
      rw [storeF_big I cfg pcr key exp value now kv ip r ipB hbig hadd,
        storeAfterTier_pos _ _ _ _ _ hexp] at hstore
      simp only [Prod.mk.injEq] at hstore
      obtain ⟨-, hkv2, hip2⟩ := hstore
      subst hkv2; subst hip2
      rw [loadF, kvGet_kvSet_self]
      simp [decode_encode, hinv ip value r ipB hadd]
  · rw [storeF_small I cfg pcr key exp value now kv ip hbig,
      storeAfterTier_pos _ _ _ _ _ hexp] at hstore
    simp only [Prod.mk.injEq] at hstore
    obtain ⟨-, hkv2, hip2⟩ := hstore
    subst hkv2; subst hip2
    rw [loadF, kvGet_kvSet_self]
    simp [decode_encode]

/-- A trivial overflow store for concrete instances: the reference is the
value itself, so `get` is a left inverse of `add` definitionally. -/
def idIpfs : Ipfs Unit :=
  ⟨fun s v => (.ok v, s), fun _ r => .ok r, fun s _ => (.ok (), s)⟩

/-- An overflow store with a counting state and a constant 3-byte reference,
used to observe whether `add` was called. -/
def ctrIpfs : Ipfs Nat :=
  ⟨fun n _ => (.ok [104, 104, 104], n + 1), fun _ r => .ok r, fun n _ => (.ok (), n + 1)⟩

/-- A sample configuration (the defaults of `main.rs`, with an overflow
threshold of 100 bytes). -/
def cfgW : Config := ⟨200, 5, 30000, 17637500, 3527500, 1763750, 879583, 100⟩

/-- `cfgW` with a 1-byte overflow threshold, so small values overflow. -/
def cfgT1 : Config := ⟨200, 5, 30000, 17637500, 3527500, 1763750, 879583, 1⟩

/-- Witness for C1: the round-trip at concrete inputs, once inline
(threshold 100) and once through the overflow store (threshold 1). -/
theorem store_load_round_trip_witness :
    loadF idIpfs cfgW [116] [107]
        (storeF idIpfs cfgW [116] [107] 1000 [97, 98] 0 [] ()).2.1
        (storeF idIpfs cfgW [116] [107] 1000 [97, 98] 0 [] ()).2.2
      = .ok ([97, 98], cfgW.operation_c_cost)
    ∧ loadF idIpfs cfgT1 [116] [107]
        (storeF idIpfs cfgT1 [116] [107] 1000 [97, 98] 0 [] ()).2.1
        (storeF idIpfs cfgT1 [116] [107] 1000 [97, 98] 0 [] ()).2.2
      = .ok ([97, 98], cfgT1.operation_c_cost) := by
  constructor
  · exact store_load_round_trip idIpfs cfgW [116] [107] 1000 [97, 98] 0 [] ()
      _ _ _ (fun s w r s2 h => by simp [idIpfs] at h ⊢; simp [h]) (by norm_num)
      rfl
  · exact store_load_round_trip idIpfs cfgT1 [116] [107] 1000 [97, 98] 0 [] ()
      _ _ _ (fun s w r s2 h => by simp [idIpfs] at h ⊢; simp [h]) (by norm_num)
      rfl

/-- C2: what the code actually does on deleting an absent key — the initial
`GET` receives a `Nil` reply, whose conversion to `String` fails in redis-rs,
so `delete` returns that error instead of the fixed cost (the
`value.len() > 0` guard shows the author expected `Nil` to read as an empty
string).  Evaluated at tenant `t`, key `k`, empty backend. -/
theorem delete_absent_errors :
    deleteF idIpfs cfgW [116] [107] [] () = (.error .redisType, [], ()) := rfl

/-- C3 counterexample: with an overflow threshold of 1 byte, storing the
2-byte value `aa` with `expiry_ms = 0` pushes the value to the Content
Overflow Store (the counting store's state moves from 0 to 1) before the
zero-expiry rejection, so "no object is added to the Content Overflow
Store" fails. -/
theorem store_zero_expiry_counterexample :
    (storeF ctrIpfs cfgT1 [116] [107] 0 [97, 97] 0 [] 0).1 = .error .expiryZero
    ∧ (storeF ctrIpfs cfgT1 [116] [107] 0 [97, 97] 0 [] 0).2.2 ≠ 0 :=
  ⟨rfl, by decide⟩

/-- C3 (amended): `store(tenant, key, 0, value)` fails with the
zero-expiry `InvalidArgument` error and performs no backend key-value
write; when `len(value)` is at most the overflow threshold the Content
Overflow Store is untouched as well, but when `len(value)` exceeds the
threshold the value is pushed to the overflow store before the expiry
check, so the overflow store does gain an object. -/
theorem store_zero_expiry {σ : Type} (I : Ipfs σ) (cfg : Config)
    (pcr key value : Str) (now : Int) (kv : Kv) (ip : σ) :
    (value.length ≤ cfg.mem_threshold →
      storeF I cfg pcr key 0 value now kv ip = (.error .expiryZero, kv, ip))
    ∧ (∀ r ip2, value.length > cfg.mem_threshold → I.add ip value = (.ok r, ip2) →
      storeF I cfg pcr key 0 value now kv ip = (.error .expiryZero, kv, ip2)) := by
  constructor
  · intro h
    rw [storeF_small I cfg pcr key 0 value now kv ip (by omega),
      storeAfterTier_invalid _ _ _ _ _ (by norm_num) (by norm_num)]
  · intro r ip2 h hadd
    rw [storeF_big I cfg pcr key 0 value now kv ip r ip2 h hadd,
      storeAfterTier_invalid _ _ _ _ _ (by norm_num) (by norm_num)]

/-- Witness for C3 (amended): both branches at concrete inputs. -/
theorem store_zero_expiry_witness :
    storeF idIpfs cfgW [116] [107] 0 [97, 98] 0 [] () = (.error .expiryZero, [], ())
    ∧ storeF ctrIpfs cfgT1 [116] [107] 0 [97, 97] 0 [] 0
        = (.error .expiryZero, [], 1) := by
  constructor
  · exact (store_zero_expiry idIpfs cfgW [116] [107] [97, 98] 0 [] ()).1 (by decide)
  · exact (store_zero_expiry ctrIpfs cfgT1 [116] [107] [97, 97] 0 [] 0).2
      [104, 104, 104] 1 (by decide) rfl

/-- C10: for every `expiry_ms` that is neither positive nor `-1` (so every
negative value such as `-2`, not only zero), `store` fails with the same
zero-expiry error and issues no backend key-value write; only
`expiry_ms > 0` and `expiry_ms = -1` can reach a backend write.  (Stated
under a successful tiering step: for an over-threshold value the overflow
push still happens first, exactly as in the zero case.) -/
theorem store_invalid_expiry {σ : Type} (I : Ipfs σ) (cfg : Config)
    (pcr key value : Str) (exp : Int) (now : Int) (kv : Kv) (ip : σ)
    (h1 : ¬0 < exp) (h2 : exp ≠ -1) :
    (value.length ≤ cfg.mem_threshold →
      storeF I cfg pcr key exp value now kv ip = (.error .expiryZero, kv, ip))
    ∧ (∀ r ip2, value.length > cfg.mem_threshold → I.add ip value = (.ok r, ip2) →
      storeF I cfg pcr key exp value now kv ip = (.error .expiryZero, kv, ip2)) := by
  constructor
  · intro h
    rw [storeF_small I cfg pcr key exp value now kv ip (by omega),
      storeAfterTier_invalid _ _ _ _ _ h1 h2]
  · intro r ip2 h hadd
    rw [storeF_big I cfg pcr key exp value now kv ip r ip2 h hadd,
      storeAfterTier_invalid _ _ _ _ _ h1 h2]

/-- Witness for C10: `expiry_ms = -2` at concrete inputs. -/
theorem store_invalid_expiry_witness :
    storeF idIpfs cfgW [116] [107] (-2) [97, 98] 0 [] ()
      = (.error .expiryZero, [], ()) :=
  (store_invalid_expiry idIpfs cfgW [116] [107] [97, 98] (-2) 0 [] ()
    (by norm_num) (by norm_num)).1 (by decide)

/-- C4: conditional refresh — `store(tenant, key, -1, value)` writes the new
record only if the key already exists, preserving the stored TTL unchanged
(`KEEPTTL`), with the previous stored value's length entering the cost
delta; on an absent key no record is created (the conditional `SET ... XX`
does not write, the `Nil` old-value reply fails the `String` conversion) and
`exists(tenant, key)` remains false.  Stated for values within the overflow
threshold. -/
theorem store_refresh {σ : Type} (I : Ipfs σ) (cfg : Config)
    (pcr key value : Str) (now : Int) (kv : Kv) (ip : σ)
    (hsm : value.length ≤ cfg.mem_threshold) :
    (∀ e, kvGet kv (get_namespaced_key pcr key) = some e →
      storeF I cfg pcr key (-1) value now kv ip
        = (.ok (max (((encodeStorageData ⟨value, now, false⟩).length : Int)
              - e.val.length) 0 * (Int.tdiv (-1) 1000) * cfg.memory_cost
              + cfg.operation_c_cost),
           kvSet kv (get_namespaced_key pcr key)
             ⟨encodeStorageData ⟨value, now, false⟩, e.ttl⟩, ip))
    ∧ (kvGet kv (get_namespaced_key pcr key) = none →
      storeF I cfg pcr key (-1) value now kv ip = (.error .redisType, kv, ip)
      ∧ (existsF cfg pcr key kv).1 = false) := by
  constructor
  · intro e he
    rw [storeF_small I cfg pcr key (-1) value now kv ip (by omega),
      storeAfterTier_refresh, he]
  · intro he
    refine ⟨?_, ?_⟩
    · rw [storeF_small I cfg pcr key (-1) value now kv ip (by omega),
        storeAfterTier_refresh, he]
    · simp [existsF, kvHas, he]

/-- Witness for C4: refresh of a present key keeps the TTL 500 and returns
the fixed cost (the delta is multiplied by `(-1) / 1000 = 0`); refresh of an
absent key leaves the backend empty and `exists` false. -/
theorem store_refresh_witness :
    storeF idIpfs cfgW [116] [107] (-1) [97, 98] 0
        [([116, 47, 107], ⟨[120], 500⟩)] ()
      = (.ok cfgW.operation_c_cost,
         [([116, 47, 107], ⟨encodeStorageData ⟨[97, 98], 0, false⟩, 500⟩)], ())
    ∧ (storeF idIpfs cfgW [116] [107] (-1) [97, 98] 0 [] ()
        = (.error .redisType, [], ())
       ∧ (existsF cfgW [116] [107] []).1 = false) := by
  constructor
  · have h := (store_refresh idIpfs cfgW [116] [107] [97, 98] 0
      [([116, 47, 107], ⟨[120], 500⟩)] () (by decide)).1 ⟨[120], 500⟩ (by decide)
    exact h.trans (by rfl)
  · exact (store_refresh idIpfs cfgW [116] [107] [97, 98] 0 [] ()
      (by decide)).2 rfl

/-- C5 counterexample: with an overflow threshold of 1 byte, store the
2-byte value `aa`; the overflow store hands back a 3-byte reference, and
`stat` reports `size = 3` — the reference length, not the logical value
length 2. -/
theorem stat_size_counterexample :
    statF cfgT1 [116] [107]
        (storeF ctrIpfs cfgT1 [116] [107] 1000 [97, 97] 0 [] 0).2.1
      = .ok (⟨[107], 0, 3, true⟩, cfgT1.operation_c_cost)
    ∧ (3 : Nat) ≠ ([97, 97] : Str).length :=
  ⟨rfl, by decide⟩

/-- C5 (amended): for a record written by `store` with positive expiry,
`stat` reports as `size` the byte length of the record's stored `value`
field: the logical value length when the value was stored inline, but the
overflow reference's length when the value exceeded the threshold; in
neither case the encoded `Record` size. -/
theorem stat_stored_field_size {σ : Type} (I : Ipfs σ) (cfg : Config)
    (pcr key : Str) (exp : Int) (value : Str) (now : Int) (kv : Kv) (ip : σ)
    (c : Int) (kv2 : Kv) (ip2 : σ) (hexp : 0 < exp) :
    (value.length ≤ cfg.mem_threshold →
      storeF I cfg pcr key exp value now kv ip = (.ok c, kv2, ip2) →
      statF cfg pcr key kv2
        = .ok (⟨key, now, value.length, !(key.getLast? == some 47)⟩,
            cfg.operation_c_cost))
    ∧ (∀ r ipB, value.length > cfg.mem_threshold →
      I.add ip value = (.ok r, ipB) →
      storeF I cfg pcr key exp value now kv ip = (.ok c, kv2, ip2) →
      statF cfg pcr key kv2
        = .ok (⟨key, now, r.length, !(key.getLast? == some 47)⟩,
            cfg.operation_c_cost)) := by
  constructor
  · intro hsm hstore
    rw [storeF_small I cfg pcr key exp value now kv ip (by omega),
      storeAfterTier_pos _ _ _ _ _ hexp] at hstore
    simp only [Prod.mk.injEq] at hstore
    obtain ⟨-, hkv2, -⟩ := hstore
    subst hkv2
    rw [statF, kvGet_kvSet_self]
    simp [decode_encode]
  · intro r ipB hbig hadd hstore
    rw [storeF_big I cfg pcr key exp value now kv ip r ipB hbig hadd,
      storeAfterTier_pos _ _ _ _ _ hexp] at hstore
    simp only [Prod.mk.injEq] at hstore
    obtain ⟨-, hkv2, -⟩ := hstore
    subst hkv2
    rw [statF, kvGet_kvSet_self]
    simp [decode_encode]

/-- Witness for C5 (amended): both branches at concrete inputs. -/
theorem stat_stored_field_size_witness :
    statF cfgW [116] [107]
        (storeF idIpfs cfgW [116] [107] 1000 [97, 98] 0 [] ()).2.1
      = .ok (⟨[107], 0, 2, true⟩, cfgW.operation_c_cost)
    ∧ statF cfgT1 [116] [107]
        (storeF ctrIpfs cfgT1 [116] [107] 1000 [97, 97] 0 [] 0).2.1
      = .ok (⟨[107], 0, 3, true⟩, cfgT1.operation_c_cost) := by
  constructor
  · have h := (stat_stored_field_size idIpfs cfgW [116] [107] 1000 [97, 98] 0
      [] () _ _ _ (by norm_num)).1 (by decide) rfl
    simpa using h
  · have h := (stat_stored_field_size ctrIpfs cfgT1 [116] [107] 1000 [97, 97] 0
      [] 0 _ _ _ (by norm_num)).2 [104, 104, 104] 1 (by decide) rfl rfl
    simpa using h

/-- A configuration with zero fixed costs and unit memory cost, making the
cost arithmetic of counterexamples readable. -/
def cfgS : Config := ⟨200, 5, 30000, 0, 0, 0, 1, 100⟩

/-- C6 counterexample: storing the empty value under tenant `t`, key `k`
with `expiry_ms = 1000` returns cost 41 = (len of the namespaced key `t/k`,
3) + (serialized record size, 38), times `duration_factor = 1`, times
`memory_unit_cost = 1`, plus `fixed_cost = 0` — not the claimed
`serialized_size * duration_factor * memory_unit_cost + fixed_cost = 38`. -/
theorem store_cost_counterexample :
    (storeF idIpfs cfgS [116] [107] 1000 [] 0 [] ()).1 = .ok 41
    ∧ ((41 : Int)
        ≠ ((encodeStorageData ⟨[], 0, false⟩).length : Int) * Int.tdiv 1000 1000
            * cfgS.memory_cost + cfgS.operation_c_cost) :=
  ⟨rfl, by decide⟩

/-- C6 (amended): the cost of a successful `store` is
`bytes_delta * (expiry_ms / 1000, truncated) * memory_unit_cost +
fixed_cost`, where on the absolute-set path (`expiry_ms > 0`) `bytes_delta`
is the namespaced key length plus the new serialized record size (for either
tiering outcome), and on the refresh path (`expiry_ms = -1`)
`bytes_delta = max(new_serialized_len - old_stored_len, 0)`. -/
theorem store_cost {σ : Type} (I : Ipfs σ) (cfg : Config)
    (pcr key value : Str) (now : Int) (kv : Kv) (ip : σ) :
    (∀ exp : Int, 0 < exp → value.length ≤ cfg.mem_threshold →
      (storeF I cfg pcr key exp value now kv ip).1
        = .ok ((((get_namespaced_key pcr key).length : Int)
            + ((encodeStorageData ⟨value, now, false⟩).length : Int))
            * (Int.tdiv exp 1000) * cfg.memory_cost + cfg.operation_c_cost))
    ∧ (∀ exp : Int, ∀ r ipB, 0 < exp → value.length > cfg.mem_threshold →
      I.add ip value = (.ok r, ipB) →
      (storeF I cfg pcr key exp value now kv ip).1
        = .ok ((((get_namespaced_key pcr key).length : Int)
            + ((encodeStorageData ⟨r, now, true⟩).length : Int))
            * (Int.tdiv exp 1000) * cfg.memory_cost + cfg.operation_c_cost))
    ∧ (∀ e, value.length ≤ cfg.mem_threshold →
      kvGet kv (get_namespaced_key pcr key) = some e →
      (storeF I cfg pcr key (-1) value now kv ip).1
        = .ok (max (((encodeStorageData ⟨value, now, false⟩).length : Int)
            - e.val.length) 0 * (Int.tdiv (-1) 1000) * cfg.memory_cost
            + cfg.operation_c_cost)) := by
  refine ⟨?_, ?_, ?_⟩
  · intro exp hexp hsm
    rw [storeF_small I cfg pcr key exp value now kv ip (by omega),
      storeAfterTier_pos _ _ _ _ _ hexp]
  · intro exp r ipB hexp hbig hadd
    rw [storeF_big I cfg pcr key exp value now kv ip r ipB hbig hadd,
      storeAfterTier_pos _ _ _ _ _ hexp]
  · intro e hsm he
    rw [storeF_small I cfg pcr key (-1) value now kv ip (by omega),
      storeAfterTier_refresh, he]

/-- Witness for C6 (amended): all three branches at concrete inputs. -/
theorem store_cost_witness :
    (storeF idIpfs cfgS [116] [107] 1000 [] 0 [] ()).1 = .ok 41
    ∧ (storeF ctrIpfs cfgT1 [116] [107] 2000 [97, 97] 0 [] 0).1
        = .ok ((3 + 40) * 2 * cfgT1.memory_cost + cfgT1.operation_c_cost)
    ∧ (storeF idIpfs cfgS [116] [107] (-1) [97, 98] 0
        [([116, 47, 107], ⟨[120], 500⟩)] ()).1 = .ok 0 := by
  refine ⟨?_, ?_, ?_⟩
  · have h := (store_cost idIpfs cfgS [116] [107] [] 0 [] ()).1 1000
      (by norm_num) (by decide)
    exact h.trans (by rfl)
  · have h := (store_cost ctrIpfs cfgT1 [116] [107] [97, 97] 0 [] 0).2.1 2000
      [104, 104, 104] 1 (by norm_num) (by decide) rfl
    exact h.trans (by rfl)
  · have h := (store_cost idIpfs cfgS [116] [107] [97, 98] 0
      [([116, 47, 107], ⟨[120], 500⟩)] ()).2.2 ⟨[120], 500⟩ (by decide) (by decide)
    exact h.trans (by rfl)

theorem lockLoop_attempts_le (cfg : Config) (env : LockEnv) :
    ∀ fuel used, (lockLoop cfg env fuel used).2 ≤ used + fuel := by
  intro fuel
  induction fuel with
  | zero => intro used; simp [lockLoop]
  | succ f ih =>
    intro used
    rw [lockLoop]
    by_cases h : env.existsAt used
    · simp only [h, if_true]
      have := ih (used + 1)
      omega
    · simp only [h, if_false]
      cases hid : get_unique_lock_id (env.entropy used) with
      | error e => simp
      | ok val =>
        by_cases hr : env.raceAt used <;> simp [hr]

theorem lockLoop_allExists (cfg : Config) (env : LockEnv) :
    ∀ fuel used, (∀ i, used ≤ i → i < used + fuel → env.existsAt i = true) →
    lockLoop cfg env fuel used = (.error .lockFailed, used + fuel) := by
  intro fuel
  induction fuel with
  | zero => intro used _; simp [lockLoop]
  | succ f ih =>
    intro used hall
    rw [lockLoop]
    have h0 : env.existsAt used = true := hall used (le_refl used) (by omega)
    simp only [h0, if_true]
    have := ih (used + 1) (fun i h1 h2 => hall i (by omega) (by omega))
    rw [this]
    congr 1
    omega

theorem lockLoop_firstFree (cfg : Config) (env : LockEnv) :
    ∀ fuel used i, used ≤ i → i < used + fuel →
    (∀ j, used ≤ j → j < i → env.existsAt j = true) →
    env.existsAt i = false → 20 ≤ (env.entropy i).length →
    lockLoop cfg env fuel used
      = (if env.raceAt i then (.error .lockFailed, i + 1)
         else (.ok ((env.entropy i).take 20, cfg.operation_b_cost), i + 1)) := by
  intro fuel
  induction fuel with
  | zero => intro used i h1 h2; omega
  | succ f ih =>
    intro used i h1 h2 hall hfree hlen
    rw [lockLoop]
    by_cases hu : used = i
    · subst hu
      rw [if_neg (by rw [hfree]; exact Bool.false_ne_true)]
      rw [show get_unique_lock_id (env.entropy used)
            = .ok ((env.entropy used).take 20) from by
        rw [get_unique_lock_id]
        rw [if_pos (by rw [List.length_take]; omega)]]
    · have hex : env.existsAt used = true := hall used (le_refl used) (by omega)
      simp only [hex, if_true]
      exact ih (used + 1) i (by omega) (by omega)
        (fun j hj1 hj2 => hall j (by omega) hj2) hfree hlen

/-- C7: lock acquisition with bounded retry.  Within one `lock` call at most
`retry_count` backend attempts are made (first conjunct, counting loop
iterations); if every attempt observes the lock key present, the call
returns the contention error after exactly `retry_count` attempts (second
conjunct); and the first attempt `i` that observes the key absent draws a
fresh 20-byte token from that attempt's random stream and issues one
conditional `SET NX` — on success the call returns the token with the fixed
cost, and on a lost race it fails immediately after attempt `i + 1`, with no
further retry (third conjunct). -/
theorem lock_bounded_retry (cfg : Config) (env : LockEnv) :
    ((lockF cfg env).2 ≤ cfg.retry_count)
    ∧ ((∀ i, i < cfg.retry_count → env.existsAt i = true) →
        lockF cfg env = (.error .lockFailed, cfg.retry_count))
    ∧ (∀ i, i < cfg.retry_count → (∀ j, j < i → env.existsAt j = true) →
        env.existsAt i = false → 20 ≤ (env.entropy i).length →
        ((env.entropy i).take 20).length = 20
        ∧ (env.raceAt i = false →
            lockF cfg env
              = (.ok ((env.entropy i).take 20, cfg.operation_b_cost), i + 1))
        ∧ (env.raceAt i = true →
            lockF cfg env = (.error .lockFailed, i + 1))) := by
  refine ⟨?_, ?_, ?_⟩
  · have := lockLoop_attempts_le cfg env cfg.retry_count 0
    simpa [lockF] using this
  · intro hall
    have := lockLoop_allExists cfg env cfg.retry_count 0
      (fun i h1 h2 => hall i (by omega))
    simpa [lockF] using this
  · intro i hi hall hfree hlen
    have h := lockLoop_firstFree cfg env cfg.retry_count 0 i (by omega)
      (by omega) (fun j hj1 hj2 => hall j hj2) hfree hlen
    refine ⟨by rw [List.length_take]; omega, ?_, ?_⟩
    · intro hr
      rw [lockF, h, hr]
      simp
    · intro hr
      rw [lockF, h, hr]
      simp

/-- A lock environment for the witness: the key exists on attempt 0 only,
no race, and 25 random bytes available per attempt. -/
def envW : LockEnv :=
  ⟨fun i => decide (i = 0), fun _ => false, fun _ => List.range 25⟩

/-- Witness for C7: with `retry_count = 5`, attempt 0 sees the key held and
attempt 1 acquires it — the call returns the 20-byte token after exactly 2
attempts. -/
theorem lock_bounded_retry_witness :
    lockF cfgW envW = (.ok ((List.range 25).take 20, cfgW.operation_b_cost), 2)
    ∧ ((List.range 25).take 20).length = 20 := by
  have h := (lock_bounded_retry cfgW envW).2.2 1 (by decide)
    (fun j hj => by
      have : j = 0 := by omega
      subst this
      rfl)
    (by rfl) (by decide)
  exact ⟨h.2.1 rfl, h.1⟩

theorem kvGet_kvDel_ne (st : Kv) (k k2 : Str) (hne : k2 ≠ k) :
    kvGet (kvDel st k) k2 = kvGet st k2 := by
  induction st with
  | nil => simp [kvDel]
  | cons p rest ih =>
    obtain ⟨k3, e3⟩ := p
    by_cases hk : k3 = k
    · subst hk
      have h1 : kvDel ((k3, e3) :: rest) k3 = kvDel rest k3 := by
        simp [kvDel]
      rw [h1, ih]
      have h2 : kvGet ((k3, e3) :: rest) k2 = kvGet rest k2 := by
        rw [kvGet, if_neg (fun h => hne h.symm)]
      rw [h2]
    · have h1 : kvDel ((k3, e3) :: rest) k = (k3, e3) :: kvDel rest k := by
        simp [kvDel, hk]
      rw [h1]
      by_cases h2 : k3 = k2
      · rw [kvGet, if_pos h2, kvGet, if_pos h2]
      · rw [kvGet, if_neg h2, kvGet, if_neg h2, ih]

/-- C8: release-ownership frame.  With the lock key currently holding the
value `e.val`, `unlock(tenant, key, token)` deletes the lock key and
succeeds with the fixed cost exactly when `token` equals the stored value
byte-for-byte; on any mismatch it fails with the ownership-mismatch error
and the backend — in particular the held lock value — is left unchanged. -/
theorem unlock_ownership (cfg : Config) (pcr key lock_id : Str) (kv : Kv)
    (e : Entry) (hcur : kvGet kv (get_locked_key pcr key) = some e) :
    (lock_id = e.val →
      unlockF cfg pcr key lock_id kv
        = (.ok cfg.operation_b_cost, kvDel kv (get_locked_key pcr key))
      ∧ kvGet (unlockF cfg pcr key lock_id kv).2 (get_locked_key pcr key) = none)
    ∧ (lock_id ≠ e.val →
      unlockF cfg pcr key lock_id kv = (.error .lockMismatch, kv)
      ∧ kvGet (unlockF cfg pcr key lock_id kv).2 (get_locked_key pcr key)
          = some e) := by
  have hload : load_locked pcr key kv = e.val := by
    rw [load_locked, hcur]
  constructor
  · intro heq
    have hmatch : load_locked pcr key kv = lock_id := by rw [hload, heq]
    constructor
    · rw [unlockF, if_pos hmatch, delete_locked]
    · rw [unlockF, if_pos hmatch]
      exact kvGet_kvDel_self kv (get_locked_key pcr key)
  · intro hne
    have hmatch : ¬load_locked pcr key kv = lock_id := by
      rw [hload]; exact fun h => hne h.symm
    constructor
    · rw [unlockF, if_neg hmatch]
    · rw [unlockF, if_neg hmatch]
      exact hcur

/-- Witness for C8: a held lock with value `x` is released by the matching
token and survives a mismatching token. -/
theorem unlock_ownership_witness :
    unlockF cfgW [116] [107] [120] [([116, 46, 108, 111, 99, 107, 47, 107], ⟨[120], 500⟩)]
      = (.ok cfgW.operation_b_cost, [])
    ∧ unlockF cfgW [116] [107] [121] [([116, 46, 108, 111, 99, 107, 47, 107], ⟨[120], 500⟩)]
      = (.error .lockMismatch, [([116, 46, 108, 111, 99, 107, 47, 107], ⟨[120], 500⟩)]) := by
  constructor
  · have h := ((unlock_ownership cfgW [116] [107] [120]
      [([116, 46, 108, 111, 99, 107, 47, 107], ⟨[120], 500⟩)] ⟨[120], 500⟩
      (by rfl)).1 rfl).1
    exact h.trans (by rfl)
  · exact ((unlock_ownership cfgW [116] [107] [121]
      [([116, 46, 108, 111, 99, 107, 47, 107], ⟨[120], 500⟩)] ⟨[120], 500⟩
      (by rfl)).2 (by decide)).1

theorem globMatchF_cons (fuel : Nat) (p : Nat) (ps2 ks : List Nat) :
    globMatchF (fuel + 1) (p :: ps2) ks
      = (if p = 42 then
          globMatchF fuel ps2 ks ||
            (match ks with
             | [] => false
             | _ :: ks2 => globMatchF fuel (p :: ps2) ks2)
        else if p = 63 then
          match ks with
          | [] => false
          | _ :: ks2 => globMatchF fuel ps2 ks2
        else if p = 92 then
          match ps2 with
          | [] => false
          | p2 :: ps3 =>
            match ks with
            | [] => false
            | k :: ks2 => decide (p2 = k) && globMatchF fuel ps3 ks2
        else
          match ks with
          | [] => false
          | k :: ks2 => decide (p = k) && globMatchF fuel ps2 ks2) := rfl

theorem globMatchF_star (fuel : Nat) : ∀ s : List Nat,
    s.length + 1 ≤ fuel → globMatchF fuel [42] s = true := by
  induction fuel with
  | zero => intro s h; omega
  | succ f ih =>
    intro s h
    cases s with
    | nil =>
      cases f with
      | zero => rfl
      | succ f2 => rfl
    | cons b s2 =>
      rw [globMatchF_cons]
      simp only [if_pos rfl]
      rw [ih s2 (by simp at h; omega)]
      simp

theorem globMatchF_lit_star (fuel : Nat) : ∀ (lit s : List Nat),
    (∀ b ∈ lit, b ≠ 42 ∧ b ≠ 63 ∧ b ≠ 92) →
    lit.length + s.length + 2 ≤ fuel →
    globMatchF fuel (lit ++ [42]) s = lit.isPrefixOf s := by
  induction fuel with
  | zero => intro lit s _ h; omega
  | succ f ih =>
    intro lit s hfree h
    cases lit with
    | nil =>
      simp only [List.nil_append]
      have h1 : List.isPrefixOf ([] : List Nat) s = true := by
        cases s <;> rfl
      rw [h1]
      exact globMatchF_star (f + 1) s (by simp at h ⊢; omega)
    | cons c lit2 =>
      obtain ⟨hc42, hc63, hc92⟩ := hfree c (by simp)
      rw [List.cons_append, globMatchF_cons]
      simp only [if_neg hc42, if_neg hc63, if_neg hc92]
      cases s with
      | nil => simp [List.isPrefixOf]
      | cons d s2 =>
        show (decide (c = d) && globMatchF f (lit2 ++ [42]) s2)
          = (c :: lit2).isPrefixOf (d :: s2)
        rw [ih lit2 s2 (fun b hb => hfree b (by simp [hb]))
          (by simp at h ⊢; omega)]
        by_cases hcd : c = d
        · subst hcd
          simp [List.isPrefixOf]
        · simp [List.isPrefixOf, hcd, Ne.symm hcd]

theorem globMatch_lit_star (lit : List Nat)
    (hfree : ∀ b ∈ lit, b ≠ 42 ∧ b ≠ 63 ∧ b ≠ 92) (s : List Nat) :
    globMatch (lit ++ [42]) s = lit.isPrefixOf s := by
  rw [globMatch]
  exact globMatchF_lit_star _ lit s hfree (by simp; omega)

theorem listLoop_succ (keys : List Str) (pat ns : Str) (fuel cursor : Nat) :
    listLoop keys pat ns (fuel + 1) cursor
      = (if (scanOnce keys pat cursor).1 = 0
         then ((scanOnce keys pat cursor).2).filterMap (fun k => stripPre ns k)
         else ((scanOnce keys pat cursor).2).filterMap (fun k => stripPre ns k)
           ++ listLoop keys pat ns fuel (scanOnce keys pat cursor).1) := rfl

theorem listLoop_from (keys : List Str) (pat ns : Str) :
    ∀ fuel i, i < keys.length → keys.length ≤ i + fuel →
    listLoop keys pat ns fuel i
      = ((keys.drop i).filter (fun k => globMatch pat k)).filterMap
          (fun k => stripPre ns k) := by
  intro fuel
  induction fuel with
  | zero => intro i h1 h2; omega
  | succ f ih =>
    intro i h1 h2
    rw [listLoop_succ]
    have hdrop : keys.drop i = keys[i] :: keys.drop (i + 1) :=
      List.drop_eq_getElem_cons h1
    have htake : (keys.drop i).take 1 = [keys[i]] := by
      rw [hdrop]; rfl
    have hs2 : (scanOnce keys pat i).2
        = [keys[i]].filter (fun k => globMatch pat k) := by
      rw [scanOnce, ← htake]
    by_cases hlast : i + 1 < keys.length
    · have hs1 : (scanOnce keys pat i).1 = i + 1 := by
        rw [scanOnce]
        simp [hlast]
      rw [hs1, hs2, if_neg (by omega : ¬i + 1 = 0)]
      rw [ih (i + 1) hlast (by omega)]
      rw [← List.filterMap_append, ← List.filter_append, List.singleton_append,
        ← hdrop]
    · have hi1 : i + 1 = keys.length := by omega
      have hs1 : (scanOnce keys pat i).1 = 0 := by
        rw [scanOnce]
        simp [hlast]
      rw [hs1, hs2, if_pos rfl]
      have hdrop2 : keys.drop i = [keys[i]] := by
        rw [hdrop, hi1, List.drop_length]
      rw [← hdrop2]

theorem listLoop_all (keys : List Str) (pat ns : Str) :
    listLoop keys pat ns (keys.length + 1) 0
      = (keys.filter (fun k => globMatch pat k)).filterMap
          (fun k => stripPre ns k) := by
  by_cases hk : keys = []
  · subst hk
    rfl
  · have h1 : 0 < keys.length := List.length_pos.mpr hk
    have := listLoop_from keys pat ns (keys.length + 1) 0 h1 (by omega)
    simpa using this

/-- C9: recursive prefix listing.  For a tenant and prefix free of the
backend matcher's metacharacters, when the backend keyspace holds exactly
the tenant's logical keys `ks` (each under the tenant's namespace) and the
prefix is neither `"*"` nor whitespace-only, `list(tenant, prefix,
recursive := true)` returns precisely the tenant's logical keys that start
with the prefix, with the tenant namespace stripped from each. -/
theorem list_recursive_prefix (cfg : Config) (pcr pfx : Str) (ks : List Str)
    (kv : Kv)
    (hfree_t : ∀ b ∈ pcr, b ≠ 42 ∧ b ≠ 63 ∧ b ≠ 91 ∧ b ≠ 92)
    (hfree_p : ∀ b ∈ pfx, b ≠ 42 ∧ b ≠ 63 ∧ b ≠ 91 ∧ b ≠ 92)
    (hne : ¬(pfx = [42] ∨ (rustTrim pfx).length = 0))
    (hkeys : kv.map Prod.fst = ks.map (fun k => get_namespaced_key pcr k)) :
    listF cfg pcr pfx true kv
      = (ks.filter (fun k => pfx.isPrefixOf k), cfg.operation_a_cost) := by
  have hlit : ∀ b ∈ get_namespaced_key pcr pfx, b ≠ 42 ∧ b ≠ 63 ∧ b ≠ 92 := by
    intro b hb
    rw [get_namespaced_key, get_namespace_pre] at hb
    simp only [List.append_assoc, List.mem_append, List.mem_singleton] at hb
    rcases hb with hb | hb | hb
    · obtain ⟨x, y, -⟩ := hfree_t b hb
      exact ⟨x, y, (hfree_t b hb).2.2.2⟩
    · subst hb; norm_num
    · obtain ⟨x, y, -⟩ := hfree_p b hb
      exact ⟨x, y, (hfree_p b hb).2.2.2⟩
  have hglob : ∀ k : Str,
      globMatch (get_namespaced_key pcr pfx ++ [42]) (get_namespaced_key pcr k)
        = pfx.isPrefixOf k := by
    intro k
    rw [globMatch_lit_star _ hlit]
    rw [get_namespaced_key, get_namespaced_key]
    rw [Bool.eq_iff_iff]
    rw [ List.isPrefixOf_iff_prefix, List.isPrefixOf_iff_prefix]
    exact List.prefix_append_right_inj _
  rw [listF]
  simp only [if_neg hne, true_or, if_true, hkeys]
  rw [listLoop_all]
  have hlen : (ks.map (fun k => get_namespaced_key pcr k)).length + 1
      = ks.length + 1 := by simp
  rw [List.filter_map, List.filterMap_map]
  rw [List.filter_congr (fun a _ => by
    simp only [Function.comp]
    exact hglob a)]
  have hstrip : ∀ a ∈ ks.filter (fun k => List.isPrefixOf pfx k),
      ((fun k => stripPre (get_namespace_pre pcr) k)
          ∘ (fun k => get_namespaced_key pcr k)) a = some a := by
    intro a _
    exact stripPre_append _ a
  rw [@List.filterMap_congr _ _ _ some _ hstrip]
  rw [List.filterMap_some]

/-- Witness for C9: the spec's listing scenario — tenant `pcr`, stored
logical keys `a_0`, `a/1`, `a/2`, `other_a`, prefix `a`, recursive — yields
exactly `{a_0, a/1, a/2}`. -/
theorem list_recursive_prefix_witness :
    listF cfgW [112, 99, 114] [97] true
        [(get_namespaced_key [112, 99, 114] [97, 95, 48], ⟨[120], 500⟩),
         (get_namespaced_key [112, 99, 114] [97, 47, 49], ⟨[120], 500⟩),
         (get_namespaced_key [112, 99, 114] [97, 47, 50], ⟨[120], 500⟩),
         (get_namespaced_key [112, 99, 114]
           [111, 116, 104, 101, 114, 95, 97], ⟨[120], 500⟩)]
      = ([[97, 95, 48], [97, 47, 49], [97, 47, 50]], cfgW.operation_a_cost) := by
  have h := list_recursive_prefix cfgW [112, 99, 114] [97]
    [[97, 95, 48], [97, 47, 49], [97, 47, 50], [111, 116, 104, 101, 114, 95, 97]]
    [(get_namespaced_key [112, 99, 114] [97, 95, 48], ⟨[120], 500⟩),
     (get_namespaced_key [112, 99, 114] [97, 47, 49], ⟨[120], 500⟩),
     (get_namespaced_key [112, 99, 114] [97, 47, 50], ⟨[120], 500⟩),
     (get_namespaced_key [112, 99, 114]
       [111, 116, 104, 101, 114, 95, 97], ⟨[120], 500⟩)]
    (by decide) (by decide) (by decide) (by rfl)
  exact h.trans (by rfl)

end OysterStorage
